import Mathlib

/-!
Shallow embedding of `scrape_apihub_odata.py` (earthobservatory-az/scihub_acquisition_scraper).

Strings from the Python side are modelled as `List Char`.  Python dicts whose
values are ints or strings are modelled as functions `List Char → Option Val`
(assignment = pointwise update).  Fallible Python code (raising exceptions)
is modelled with `Except Err`.  External effects — the HTTP session, the
existence probes, the geometry library `shapely`/`geojson`, dataset ingestion
— are modelled as explicit parameters (scripted pages, a probe function, a
geometry-parse function) and as emitted events.
-/

/-- Python strings are modelled as lists of characters. -/
abbrev Str := List Char

/-- A value stored in one of the Python dicts of the scraper: the scraper only
stores ints (from the `int` field group) and strings (everything else that the
claims inspect).  Values produced by the geometry library are supplied by the
`geo` parameter and are also represented with these constructors. -/
inductive Val where
  | vint (n : Int)
  | vstr (s : Str)
deriving DecidableEq

/-- The exceptions the scraper can raise, by Python exception class:
`KeyError` from a missing dict key, `TypeError` from an operation on a value
of the wrong type, `RuntimeError` with its message, HTTP errors from
`raise_for_status`, and `scriptEnd` for the modelling artifact of a scripted
page sequence running out while the loop still wants another page. -/
inductive Err where
  | keyError (k : Str)
  | typeError
  | runtimeError (msg : Str)
  | httpError (code : Nat)
  | scriptEnd
deriving DecidableEq

/-- A Python dict with string keys, as a lookup function. -/
def Dict : Type := Str → Option Val

/-- The empty dict. -/
def emptyD : Dict := fun _ => none

/-- Python dict assignment `m[k] = v`. -/
def dinsert (m : Dict) (k : Str) (v : Val) : Dict :=
  fun k' => if k' = k then some v else m k'

/-- Python dict subscript `m[k]`: raises `KeyError` when the key is absent. -/
def dget (m : Dict) (k : Str) : Except Err Val :=
  match m k with
  | some v => .ok v
  | none => .error (.keyError k)

/-- Lift an optional result to `Except`, raising `e` on `none`. -/
def ofOption (e : Err) : Option α → Except Err α
  | some a => .ok a
  | none => .error e

/-- Python 2 `==` between a stored value and an int expression: cross-type
comparison between a string and an int is `False` (no exception). -/
def valEqInt : Val → Int → Bool
  | .vint n, k => n == k
  | .vstr _, _ => false

/-- Python `"%s" % v` formatting of a stored value. -/
def valFmt : Val → Str
  | .vstr s => s
  | .vint n => if n < 0 then '-' :: Nat.toDigits 10 n.natAbs else Nat.toDigits 10 n.toNat

/-- Python `s.replace('Z', '')`: removes every occurrence of `'Z'`. -/
def stripZ (s : Str) : Str := s.filter (fun c => c ≠ 'Z')

-- String constants of the scraper, as `List Char` literals.

def korbitnumber : Str := "orbitnumber".toList
def krelativeorbitnumber : Str := "relativeorbitnumber".toList
def kOrbitNumber : Str := "orbitNumber".toList
def kTrackNumber : Str := "trackNumber".toList
def kdownload_url : Str := "download_url".toList
def korbitdirection : Str := "orbitdirection".toList
def kdirection : Str := "direction".toList
def kdsc : Str := "dsc".toList
def kasc : Str := "asc".toList
def kDESCENDING : Str := "DESCENDING".toList
def kASCENDING : Str := "ASCENDING".toList
def kbeginposition : Str := "beginposition".toList
def kendposition : Str := "endposition".toList
def ksensingStart : Str := "sensingStart".toList
def ksensingStop : Str := "sensingStop".toList
def ktitle : Str := "title".toList
def kfootprint : Str := "footprint".toList
def klocation : Str := "location".toList
def kbbox : Str := "bbox".toList
def kplatform : Str := "platform".toList
def kdata_product_name : Str := "data_product_name".toList
def karchive_filename : Str := "archive_filename".toList
def kacquisitionDash : Str := "acquisition-".toList
def kdotzip : Str := ".zip".toList
def kSentinel1 : Str := "Sentinel-1".toList
def kS1A : Str := "Sentinel-1A".toList
def kS1B : Str := "Sentinel-1B".toList
def kquery_api : Str := "query_api".toList
def kodata : Str := "odata".toList
def kicon : Str := "icon".toList
def kversion : Str := "version".toList
def klabel : Str := "label".toList
def kstarttime : Str := "starttime".toList
def kendtime : Str := "endtime".toList
def msgOrbitDirLead : Str := "Failed to recognize orbit direction: ".toList
def msgPlatformLead : Str := "Failed to extract iplatform: ".toList
def msgGeometry : Str := "Failed to parse footprint geometry.".toList
def msgVerifyA : Str := "Failed to verify S1A relative orbit number and track number.".toList
def msgVerifyB : Str := "Failed to verify S1B relative orbit number and track number.".toList
def msgConfig : Str := "Cannot specify ingest_missing=True and create_only=True.".toList

/-- A raw ApiHub result entry, as parsed from the feed XML.  The Python code
receives it as one dict holding the field-group lists under the keys `int`,
`link`, `str`, `date` together with the remaining scalar keys (`title`,
`footprint`, `id`, `icon`, ...); here the four group lists are held apart and
`rest` holds all the remaining keys.  The contents of the `int` group are
modelled after `int()` parsing (the scraper applies `int` to each content). -/
structure RawEntry where
  int : List (Str × Int)
  link : List (Option Str × Str)
  str : List (Str × Str)
  date : List (Str × Str)
  rest : Dict

/-- The `res['int']` loop of `massage_result`: `orbitnumber` is stored as
`orbitNumber`, `relativeorbitnumber` as `trackNumber`, every other int field
under its own name. -/
def setIntFields (m : Dict) : List (Str × Int) → Dict
  | [] => m
  | (n, c) :: fs =>
    setIntFields
      (if n = korbitnumber then dinsert m kOrbitNumber (.vint c)
       else if n = krelativeorbitnumber then dinsert m kTrackNumber (.vint c)
       else dinsert m n (.vint c)) fs

/-- The `res['link']` loop of `massage_result`: a link with a `rel` attribute
is stored under the `rel` value, otherwise under `download_url`. -/
def setLinkFields (m : Dict) : List (Option Str × Str) → Dict
  | [] => m
  | (r, href) :: fs =>
    setLinkFields
      (match r with
       | some rel => dinsert m rel (.vstr href)
       | none => dinsert m kdownload_url (.vstr href)) fs

/-- The `res['str']` loop of `massage_result`: `orbitdirection` must be
`DESCENDING` (stored as `direction = "dsc"`) or `ASCENDING` (stored as
`direction = "asc"`), anything else raises `RuntimeError`; `endposition` is
stored as `sensingStop`; every other string field under its own name. -/
def setStrFields (m : Dict) : List (Str × Str) → Except Err Dict
  | [] => .ok m
  | (n, c) :: fs =>
    if n = korbitdirection then
      if c = kDESCENDING then setStrFields (dinsert m kdirection (.vstr kdsc)) fs
      else if c = kASCENDING then setStrFields (dinsert m kdirection (.vstr kasc)) fs
      else .error (.runtimeError (msgOrbitDirLead ++ c))
    else if n = kendposition then setStrFields (dinsert m ksensingStop (.vstr c)) fs
    else setStrFields (dinsert m n (.vstr c)) fs

/-- The `res['date']` loop of `massage_result`: `beginposition` is stored as
`sensingStart` and `endposition` as `sensingStop`, both through
`.replace('Z', '')`; every other date field under its own name, verbatim. -/
def setDateFields (m : Dict) : List (Str × Str) → Dict
  | [] => m
  | (n, c) :: fs =>
    setDateFields
      (if n = kbeginposition then dinsert m ksensingStart (.vstr (stripZ c))
       else if n = kendposition then dinsert m ksensingStop (.vstr (stripZ c))
       else dinsert m n (.vstr c)) fs

/-- Helper for the lazy group of `PLATFORM_RE = r'S1(.+?)_'`: scanning the
characters after `S1`, accumulate until the next `'_'`; the group is the
(nonempty) run of characters already accumulated. -/
def lazyGroupGo (acc : Str) : Str → Option Str
  | [] => none
  | c :: rest => if c = '_' then some acc.reverse else lazyGroupGo (c :: acc) rest

/-- The lazy `(.+?)` group followed by `'_'`: the shortest nonempty prefix of
the input whose following character is `'_'`. -/
def lazyGroup : Str → Option Str
  | [] => none
  | c :: rest => lazyGroupGo [c] rest

/-- Try to match `S1(.+?)_` at the start of the string. -/
def matchS1At : Str → Option Str
  | 'S' :: '1' :: t => lazyGroup t
  | _ => none

/-- `PLATFORM_RE.search`: leftmost match of `S1(.+?)_`, returning group 1. -/
def platformSearch : Str → Option Str
  | [] => none
  | c :: rest => (matchS1At (c :: rest)).orElse (fun _ => platformSearch rest)

/-- One track/orbit consistency check of `massage_result` (the bodies of the
two platform branches differ only in the subtracted offset and the message):
`res['trackNumber'] != (res['orbitNumber'] - off) % 175 + 1` raises
`RuntimeError`; a non-int `orbitNumber` makes the subtraction a `TypeError`;
a missing key is a `KeyError`. -/
def checkTrack (m : Dict) (off : Int) (msg : Str) : Except Err Unit :=
  match dget m kTrackNumber with
  | .error e => .error e
  | .ok t =>
    match dget m kOrbitNumber with
    | .error e => .error e
    | .ok o =>
      match o with
      | .vint ov => if valEqInt t ((ov - off) % 175 + 1) then .ok () else .error (.runtimeError msg)
      | .vstr _ => .error .typeError

/-- The `# verify track` tail of `massage_result`: two successive `if`
statements on `res['platform']`, for `Sentinel-1A` (offset 73) and
`Sentinel-1B` (offset 27); any other platform value skips both checks.
On success the massaged dict is returned unchanged. -/
def verifyTrack (m : Dict) : Except Err Dict :=
  match dget m kplatform with
  | .error e => .error e
  | .ok p =>
    match (if p = .vstr kS1A then checkTrack m 73 msgVerifyA else .ok ()) with
    | .error e => .error e
    | .ok _ =>
      match dget m kplatform with
      | .error e => .error e
      | .ok p2 =>
        match (if p2 = .vstr kS1B then checkTrack m 27 msgVerifyB else .ok ()) with
        | .error e => .error e
        | .ok _ => .ok m

/-- `massage_result` up to (but excluding) the final track verification:
the four field-group loops, then `data_product_name` / `archive_filename`
from `title`, then the footprint (parsed by the external geometry function
`geo`, which stands for `shapely.wkt.loads` + `geojson` and yields the
`location` and `bbox` values or fails), then the platform extracted from the
title by `PLATFORM_RE`. -/
def massageBase (geo : Str → Option (Val × Val)) (e : RawEntry) : Except Err Dict := do
  let m1 := setIntFields e.rest e.int
  let m2 := setLinkFields m1 e.link
  let m3 ← setStrFields m2 e.str
  let m4 := setDateFields m3 e.date
  let tv ← dget m4 ktitle
  let m5 := dinsert m4 kdata_product_name (.vstr (kacquisitionDash ++ valFmt tv))
  let m6 := dinsert m5 karchive_filename (.vstr (valFmt tv ++ kdotzip))
  let fp ← dget m6 kfootprint
  let fps ← (match fp with
             | .vstr s => Except.ok s
             | .vint _ => Except.error Err.typeError)
  let lb ← ofOption (.runtimeError msgGeometry) (geo fps)
  let m7 := dinsert (dinsert m6 klocation lb.1) kbbox lb.2
  let ts ← (match tv with
            | .vstr s => Except.ok s
            | .vint _ => Except.error Err.typeError)
  let grp ← ofOption (.runtimeError (msgPlatformLead ++ ts)) (platformSearch ts)
  let m8 := dinsert m7 kplatform (.vstr (kSentinel1 ++ grp))
  .ok m8

/-- `massage_result`: the field massaging followed by the track verification. -/
def massage_result (geo : Str → Option (Val × Val)) (e : RawEntry) : Except Err Dict :=
  match massageBase geo e with
  | .ok m => verifyTrack m
  | .error err => .error err

/-- `get_dataset_json`: builds the HySDS dataset JSON from the met dict
(each subscript may raise `KeyError`). -/
def get_dataset_json (met : Dict) (version : Str) : Except Err Dict := do
  let l ← dget met kdata_product_name
  let loc ← dget met klocation
  let st ← dget met ksensingStart
  let et ← dget met ksensingStop
  .ok (dinsert (dinsert (dinsert (dinsert (dinsert emptyD kversion (.vstr version))
        klabel l) klocation loc) kstarttime st) kendtime et)

/-- The per-product record held in `prods_all`: the met dict and the dataset
dict. -/
def Rec : Type := Dict × Dict

/-- Python dict assignment on the keyed accumulator `prods_all`, represented
as an association list with unique keys: an existing key has its value
replaced in place, a new key is appended. -/
def dictUpdate : List (Val × Rec) → Val → Rec → List (Val × Rec)
  | [], k, v => [(k, v)]
  | (k', v') :: rest, k, v =>
    if k' = k then (k, v) :: rest else (k', v') :: dictUpdate rest k v

/-- Lookup in the keyed accumulator. -/
def dictGet : List (Val × Rec) → Val → Option Rec
  | [], _ => none
  | (k', v) :: rest, k => if k' = k then some v else dictGet rest k

/-- `ids_by_track.setdefault(track, []).append(name)`: the bucket map is a
total function from track value to the list of appended identifiers
(`setdefault` makes the default the empty list). -/
def bucketApp (b : Val → List Val) (t : Val) (n : Val) : Val → List Val :=
  fun t' => if t' = t then b t ++ [n] else b t'

/-- The mutable state the query loop accumulates: `prods_all` and
`ids_by_track`. -/
structure St where
  prods : List (Val × Rec)
  buckets : Val → List Val

/-- The initial (empty) accumulator state. -/
def st0 : St := ⟨[], fun _ => []⟩

/-- The per-entry body of the query loop: massage the entry, build the
dataset JSON, store the pair in `prods_all` under `met['data_product_name']`
(silently overwriting an existing key) and append that identifier to the
`met['trackNumber']` bucket.  Any exception aborts the whole scrape. -/
def processEntry (geo : Str → Option (Val × Val)) (version : Str) (st : St)
    (e : RawEntry) : Except Err St := do
  let met ← massage_result geo e
  let ds ← get_dataset_json met version
  let name ← dget met kdata_product_name
  let prods' := dictUpdate st.prods name (met, ds)
  let track ← dget met kTrackNumber
  .ok ⟨prods', bucketApp st.buckets track name⟩

/-- The `for met in entries` loop over one page. -/
def processEntries (geo : Str → Option (Val × Val)) (version : Str) :
    St → List RawEntry → Except Err St
  | st, [] => .ok st
  | st, e :: es =>
    match processEntry geo version st e with
    | .ok st' => processEntries geo version st' es
    | .error err => .error err

/-- The state-independent summary of processing one entry: its accumulator
key (`data_product_name`), its record, and its track value.  `processEntry`
is exactly this summary followed by the state update (`processEntry_eq`). -/
def entrySummary (geo : Str → Option (Val × Val)) (version : Str)
    (e : RawEntry) : Except Err (Val × Rec × Val) := do
  let met ← massage_result geo e
  let ds ← get_dataset_json met version
  let name ← dget met kdata_product_name
  let track ← dget met kTrackNumber
  .ok (name, (met, ds), track)

/-- The state update performed for one successfully processed entry. -/
def stepSt (st : St) (x : Val × Rec × Val) : St :=
  ⟨dictUpdate st.prods x.1 x.2.1, bucketApp st.buckets x.2.2 x.1⟩

/-- Summaries of a whole entry list (first failure aborts, like the loop). -/
def summaries (geo : Str → Option (Val × Val)) (version : Str) :
    List RawEntry → Except Err (List (Val × Rec × Val))
  | [] => .ok []
  | e :: es =>
    match entrySummary geo version e with
    | .error err => .error err
    | .ok x =>
      match summaries geo version es with
      | .error err => .error err
      | .ok l => .ok (x :: l)

/-- The record of the last summary in the list whose key is `k`, if any. -/
def lastWith (k : Val) : List (Val × Rec × Val) → Option Rec
  | [] => none
  | x :: l =>
    match lastWith k l with
    | some r => some r
    | none => if x.1 = k then some x.2.1 else none

/-- The identifiers of the summaries whose track is `t`, in order, one per
occurrence. -/
def namesWith (t : Val) : List (Val × Rec × Val) → List Val
  | [] => []
  | x :: l => (if x.2.2 = t then [x.1] else []) ++ namesWith t l

/-- The `entry` value of a feed page: SciHub returns a lone object instead of
a list when the page holds exactly one entry. -/
inductive EntryOrList where
  | one (e : RawEntry)
  | many (es : List RawEntry)

/-- The `isinstance(entries, dict)` normalization: a lone object becomes a
one-element list. -/
def entriesToList : EntryOrList → List RawEntry
  | .one e => [e]
  | .many es => es

/-- A scripted response page: its HTTP status, the declared
`opensearch:totalResults` value, and the `entry` value (absent when the page
is empty). -/
structure Page where
  status : Nat
  totalResults : Int
  entries : Option EntryOrList

/-- The entries carried by one page, after the lone-object normalization. -/
def pageEntries (p : Page) : List RawEntry :=
  match p.entries with
  | none => []
  | some eol => entriesToList eol

/-- The entries of a page list, concatenated in order. -/
def pagesEntries (ps : List Page) : List RawEntry :=
  (ps.map pageEntries).flatten

/-- Outcome of the query loop: normal termination on an empty page, an
exception, or the scripted page sequence running out while the loop still
wanted another page.  `done`/`starved` carry the accumulated state and the
declared total of the first page (`total_results_expected`). -/
inductive LoopRes where
  | done (st : St) (total : Option Int)
  | failed (e : Err)
  | starved (st : St) (total : Option Int)

/-- Forget the (purely informational) declared total of a loop outcome. -/
def dropTotal : LoopRes → LoopRes
  | .done st _ => .done st none
  | .failed e => .failed e
  | .starved st _ => .starved st none

/-- Replace the declared total of a page. -/
def retotal (t : Int) (p : Page) : Page := ⟨p.status, t, p.entries⟩

/-- The `while loop:` query loop of `scrape`, run against a scripted page
sequence.  Returns the list of `$skip` offsets at which requests were issued,
and the outcome.  Per iteration: issue the request (recording its offset),
`raise_for_status` on an HTTP error, record the first page's declared total,
`break` when the `entry` key is absent, normalize a lone entry to a list,
advance the offset by the entry count, process the entries (an exception
aborts), and continue only when the count was positive. -/
def scrapeLoop (geo : Str → Option (Val × Val)) (version : Str) :
    List Page → Nat → St → Option Int → List Nat × LoopRes
  | [], _, st, tot => ([], .starved st tot)
  | p :: rest, off, st, tot =>
    if 400 ≤ p.status then ([off], .failed (.httpError p.status))
    else
      let tot' := match tot with
                  | none => some p.totalResults
                  | some t => some t
      match p.entries with
      | none => ([off], .done st tot')
      | some eol =>
        let es := entriesToList eol
        let count := es.length
        match processEntries geo version st es with
        | .error e => ([off], .failed e)
        | .ok st' =>
          if 0 < count then
            let r := scrapeLoop geo version rest (off + count) st' tot'
            (off :: r.1, r.2)
          else ([off], .done st' tot')

/-- The request offsets the loop issues for a page list, starting at `off`:
one request per page, each advanced by the previous page's entry count. -/
def pageOffsets (off : Nat) : List Page → List Nat
  | [] => []
  | p :: ps => off :: pageOffsets (off + (pageEntries p).length) ps

-- Query construction (line 195 and QUERY_TEMPLATE).

/-- A single-quote character (the query template quotes its datetimes). -/
def squote : Char := Char.ofNat 39

/-- `QUERY_TEMPLATE` up to the first placeholder. -/
def qt1 : Str := "IngestionDate ge datetime".toList ++ [squote]

/-- `QUERY_TEMPLATE` between the two placeholders. -/
def qt2 : Str := [squote] ++ " and IngestionDate lt datetime".toList ++ [squote]

/-- `QUERY_TEMPLATE` after the second placeholder. -/
def qt3 : Str := [squote] ++ " and substringof(".toList ++ [squote] ++ "IW_SLC".toList
  ++ [squote] ++ ",Name)".toList

/-- Python `s.split('.')`. -/
def splitDot : Str → List Str
  | [] => [[]]
  | c :: rest =>
    if c = '.' then [] :: splitDot rest
    else
      match splitDot rest with
      | [] => [[c]]
      | h :: t => (c :: h) :: t

/-- Python `s.split('.')[0]`: the portion of `s` before its first `'.'`. -/
def first0 (s : Str) : Str := (splitDot s).headD []

/-- Line 195: `QUERY_TEMPLATE.format(starttime.split('.')[0],
endtime.split('.')[0])`. -/
def mkQuery (starttime endtime : Str) : Str :=
  qt1 ++ first0 starttime ++ qt2 ++ first0 endtime ++ qt3

-- Existence reconciliation (lines 246-257).

/-- An externally visible action of `scrape`: a catalog page request (with
its filter string and `$skip` offset), an existence probe (`requests.head`)
for an identifier, the creation of a missing dataset, or its ingestion. -/
inductive Event where
  | fetch (query : Str) (offset : Nat)
  | probe (id : Val)
  | create (id : Val)
  | ingest (id : Val)
deriving DecidableEq

/-- Does the event create or ingest a dataset? -/
def isDatasetEvent : Event → Bool
  | .create _ => true
  | .ingest _ => true
  | .fetch _ _ => false
  | .probe _ => false

/-- The `# check if exists` loop: for each accumulated product, issue a HEAD
request; status 200 appends to `prods_found`, 404 to `prods_missing`, any
4xx/5xx status raises (`raise_for_status`) and aborts the loop, and any other
status falls through silently, leaving the identifier in neither list.
Returns the probe events issued and either the two lists or the error. -/
def reconcile (probe : Val → Nat) :
    List (Val × Rec) → List Event × Except Err (List Val × List Val)
  | [] => ([], .ok ([], []))
  | (id, _) :: rest =>
    let s := probe id
    if s = 200 then
      let r := reconcile probe rest
      (Event.probe id :: r.1, r.2.map (fun fm => (id :: fm.1, fm.2)))
    else if s = 404 then
      let r := reconcile probe rest
      (Event.probe id :: r.1, r.2.map (fun fm => (fm.1, id :: fm.2)))
    else if 400 ≤ s ∧ s < 600 then ([Event.probe id], .error (.httpError s))
    else
      let r := reconcile probe rest
      (Event.probe id :: r.1, r.2)

/-- `scrape`: build the filter from the time window (sub-second parts
dropped), run the query loop against the scripted pages, reconcile the
accumulated products against the existence probes, then act on the mode
flags: both flags set raises the configuration `RuntimeError`;
`ingest_missing` alone ingests each missing product; `create_only` alone
creates each missing product.  Dataset creation/ingestion is recorded as
events (their file-system work is modelled by `create_acq_dataset`).
Returns the events issued, in order, and the outcome. -/
def scrape (geo : Str → Option (Val × Val)) (version : Str)
    (pages : List Page) (probe : Val → Nat) (starttime endtime : Str)
    (ingest_missing create_only : Bool) : List Event × Except Err Unit :=
  let query := mkQuery starttime endtime
  let lr := scrapeLoop geo version pages 0 st0 none
  let fevs := lr.1.map (Event.fetch query)
  match lr.2 with
  | .failed e => (fevs, .error e)
  | .starved _ _ => (fevs, .error .scriptEnd)
  | .done st _ =>
    let rr := reconcile probe st.prods
    match rr.2 with
    | .error e => (fevs ++ rr.1, .error e)
    | .ok fm =>
      if ingest_missing && create_only then
        (fevs ++ rr.1, .error (.runtimeError msgConfig))
      else if ingest_missing && !create_only then
        (fevs ++ rr.1 ++ fm.2.map Event.ingest, .ok ())
      else if !ingest_missing && create_only then
        (fevs ++ rr.1 ++ fm.2.map Event.create, .ok ())
      else (fevs ++ rr.1, .ok ())

-- create_acq_dataset (lines 138-168).

/-- `os.path.join` of a directory and a name (the `os.path.abspath` of the
root directory is not modelled: paths are kept as given). -/
def pathJoin (a b : Str) : Str := a ++ '/' :: b

/-- The outcome of `create_acq_dataset`: the returned dataset id and
directory, the files written (path and the dict whose JSON is dumped), and
the met dict after the in-place `met['query_api'] = "odata"` mutation (the
Python function mutates its `met` argument; the embedding returns the
mutated dict). -/
structure CreateOut where
  id : Val
  ds_dir : Str
  written : List (Str × Dict)
  metOut : Dict

/-- `create_acq_dataset`: read the id from `met['data_product_name']`, build
the dataset directory, set `met['query_api'] = "odata"`, dump the dataset
JSON and the (mutated) met JSON, and — when `browse` is set — fetch
`met['icon']` for the browse images.  Directory creation, the JSON encoder
and the image conversions are not observable in the claims and are not
modelled beyond the written dicts. -/
def create_acq_dataset (ds met : Dict) (root_ds_dir : Str) (browse : Bool) :
    Except Err CreateOut := do
  let idv ← dget met kdata_product_name
  let ds_dir := pathJoin root_ds_dir (valFmt idv)
  let met2 := dinsert met kquery_api (.vstr kodata)
  let ds_file := pathJoin ds_dir (valFmt idv ++ ".dataset.json".toList)
  let met_file := pathJoin ds_dir (valFmt idv ++ ".met.json".toList)
  let written := [(ds_file, ds), (met_file, met2)]
  if browse then do
    let _ ← dget met2 kicon
    .ok ⟨idv, ds_dir, written, met2⟩
  else .ok ⟨idv, ds_dir, written, met2⟩

-- Statement-side helpers and the spec-side transformation used to compare.

/-- The key under which one date-group entry is stored: `beginposition` lands
at `sensingStart`, `endposition` at `sensingStop`, anything else at its own
name (mirrors the branch structure of the date loop, for stating its
per-entry effect). -/
def dateTarget (n : Str) : Str :=
  if n = kbeginposition then ksensingStart
  else if n = kendposition then ksensingStop
  else n

/-- The content one date-group entry is stored with: the two renamed fields
go through `stripZ`, the rest verbatim. -/
def dateVal (n c : Str) : Str :=
  if n = kbeginposition then stripZ c
  else if n = kendposition then stripZ c
  else c

/-- Modelled from the spec: strip exactly a trailing zone-marker character
(`'Z'`), leaving all other characters of the timestamp unchanged.  Used to
compare the spec's wording with the code's `replace('Z', '')`. -/
def stripTrailingMarker (s : Str) : Str :=
  if s.getLast? = some 'Z' then s.dropLast else s

-- Concrete material for witnesses.

/-- A total geometry parser standing in for `shapely`/`geojson` in concrete
runs. -/
def geoW : Str → Option (Val × Val) := fun _ => some (.vstr [], .vstr [])

/-- The dataset version used in concrete runs. -/
def vW : Str := "v1.1".toList

/-- A concrete raw entry that massages successfully: platform `Sentinel-1A`
(from the title), orbit 73 and track 1 (so `(73 - 73) % 175 + 1 = 1`
holds), an ascending orbit direction, and begin/end positions. -/
def eW : RawEntry :=
  { int := [(krelativeorbitnumber, 1), (korbitnumber, 73)]
    link := []
    str := [(korbitdirection, kASCENDING)]
    date := [(kbeginposition, "2020-01-01T00:00:00Z".toList),
             (kendposition, "2020-01-01T00:00:25Z".toList)]
    rest := dinsert (dinsert emptyD ktitle (.vstr ("S1A_test".toList)))
              kfootprint (.vstr ("POLYGON".toList)) }

/-- The massaged dict of `eW` (before track verification). -/
def mW : Dict :=
  match massageBase geoW eW with
  | .ok m => m
  | .error _ => emptyD

/-- The accumulator state after processing `eW` twice. -/
def stW : St :=
  match processEntries geoW vW st0 [eW, eW] with
  | .ok st => st
  | .error _ => st0

/-- Three scripted pages of sizes 100, 100 and 37. -/
def pagesW : List Page :=
  [⟨200, 237, some (.many (List.replicate 100 eW))⟩,
   ⟨200, 237, some (.many (List.replicate 100 eW))⟩,
   ⟨200, 237, some (.many (List.replicate 37 eW))⟩]

/-- The accumulator state after processing the 237 entries of `pagesW`. -/
def stBig : St :=
  match processEntries geoW vW st0 (pagesEntries pagesW) with
  | .ok st => st
  | .error _ => st0

/-- An empty record for concrete reconciliation runs. -/
def recW : Rec := (emptyD, emptyD)

/-- A concrete met dict for `create_acq_dataset` runs. -/
def metW : Dict := dinsert emptyD kdata_product_name (.vstr ("acquisition-x".toList))

/-- The outcome of a concrete `create_acq_dataset` run on `metW`. -/
def outW : CreateOut :=
  match create_acq_dataset emptyD metW ("/tmp".toList) false with
  | .ok o => o
  | .error _ => ⟨.vint 0, [], [], emptyD⟩

-- Basic dict lemmas.

/-- Looking up the key just assigned gives the assigned value. -/
theorem dinsert_self (m : Dict) (k : Str) (v : Val) : dinsert m k v k = some v := by
  simp [dinsert]

/-- Assignment leaves every other key unchanged. -/
theorem dinsert_other (m : Dict) (k : Str) (v : Val) (k' : Str) (h : k' ≠ k) :
    dinsert m k v k' = m k' := by
  simp [dinsert, h]

-- The date-field loop (claim C3).

/-- One step of the date loop stores the entry at its target key with its
mapped content. -/
theorem setDateFields_step (m : Dict) (n c : Str) (fs : List (Str × Str)) :
    setDateFields m ((n, c) :: fs) =
      setDateFields (dinsert m (dateTarget n) (.vstr (dateVal n c))) fs := by
  simp only [setDateFields, dateTarget, dateVal]
  split_ifs <;> rfl

/-- The date loop processes a concatenation sequentially. -/
theorem setDateFields_append (m : Dict) (fs gs : List (Str × Str)) :
    setDateFields m (fs ++ gs) = setDateFields (setDateFields m fs) gs := by
  induction fs generalizing m with
  | nil => rfl
  | cons f fs ih =>
    cases f with
    | mk n c =>
      simp only [List.cons_append, setDateFields]
      exact ih _

/-- Date entries whose target key differs from `k` leave key `k` unchanged. -/
theorem setDateFields_preserve (k : Str) :
    ∀ (gs : List (Str × Str)) (m : Dict), (∀ f ∈ gs, dateTarget f.1 ≠ k) →
      setDateFields m gs k = m k := by
  intro gs
  induction gs with
  | nil => intro m _; rfl
  | cons f gs ih =>
    intro m h
    cases f with
    | mk n c =>
      rw [setDateFields_step, ih _ (fun f hf => h f (List.mem_cons_of_mem _ hf))]
      exact dinsert_other _ _ _ _ (Ne.symm (h (n, c) (List.mem_cons_self _ _)))

/-- Claim C3 (amended): each date-group entry is stored at its target key
(`beginposition` → `sensingStart`, `endposition` → `sensingStop`, others
verbatim under their own name) unless a later date entry targets the same
key; the two renamed fields have every occurrence of the zone-marker
character `'Z'` removed from their content — so the stored value carries no
`'Z'` at all — and every other date entry keeps its content verbatim. -/
theorem claim_c3_amended (m : Dict) (pre post : List (Str × Str)) (n c : Str)
    (hpost : ∀ f ∈ post, dateTarget f.1 ≠ dateTarget n) :
    setDateFields m (pre ++ (n, c) :: post) (dateTarget n) =
      some (.vstr (dateVal n c)) ∧
    ((n = kbeginposition ∨ n = kendposition) →
      dateVal n c = c.filter (fun ch => ch ≠ 'Z') ∧ 'Z' ∉ dateVal n c) ∧
    (n ≠ kbeginposition → n ≠ kendposition → dateTarget n = n ∧ dateVal n c = c) := by
  have hne : kendposition ≠ kbeginposition := by decide
  refine ⟨?_, ?_, ?_⟩
  · rw [setDateFields_append, setDateFields_step, setDateFields_preserve _ _ _ hpost]
    exact dinsert_self _ _ _
  · intro h
    have hv : dateVal n c = stripZ c := by
      rcases h with h | h
      · subst h; unfold dateVal; rw [if_pos rfl]
      · subst h; unfold dateVal; rw [if_neg hne, if_pos rfl]
    refine ⟨hv, ?_⟩
    rw [hv]
    intro hmem
    exact absurd (List.mem_filter.mp hmem).2 (by decide)
  · intro h1 h2
    constructor
    · unfold dateTarget; rw [if_neg h1, if_neg h2]
    · unfold dateVal; rw [if_neg h1, if_neg h2]

/-- Witness for C3 (amended): a lone `beginposition` date entry lands at
`sensingStart` with its trailing `Z` removed. -/
theorem claim_c3_witness :
    setDateFields emptyD ([] ++ (kbeginposition, "2020-01-01T00:00:00Z".toList) :: [])
        (dateTarget kbeginposition) =
      some (.vstr (dateVal kbeginposition ("2020-01-01T00:00:00Z".toList))) ∧
    dateVal kbeginposition ("2020-01-01T00:00:00Z".toList) = "2020-01-01T00:00:00".toList :=
  ⟨(claim_c3_amended emptyD [] [] kbeginposition ("2020-01-01T00:00:00Z".toList)
      (by simp)).1, by decide⟩

/-- Counterexample for C3 as stated: on the timestamp `"Z2020"` — whose
zone marker is not trailing — the code removes the leading `'Z'`
(`replace('Z','')` removes every occurrence), while stripping exactly a
trailing zone marker would leave the string unchanged. -/
theorem claim_c3_counterexample :
    setDateFields emptyD [(kbeginposition, "Z2020".toList)] ksensingStart =
      some (.vstr ("2020".toList)) ∧
    stripTrailingMarker ("Z2020".toList) = "Z2020".toList ∧
    ("2020".toList : Str) ≠ "Z2020".toList := by
  refine ⟨by decide, by decide, by decide⟩

-- The string-field loop (claim C4).

/-- The string loop processes a concatenation sequentially (failure in the
first part aborts). -/
theorem setStrFields_append (m : Dict) (fs gs : List (Str × Str)) :
    setStrFields m (fs ++ gs) =
      match setStrFields m fs with
      | .ok m' => setStrFields m' gs
      | .error e => .error e := by
  induction fs generalizing m with
  | nil => rfl
  | cons f fs ih =>
    cases f with
    | mk n c =>
      simp only [List.cons_append, setStrFields]
      split_ifs <;> first | rfl | exact ih _

/-- String fields named neither `orbitdirection` nor `direction` never fail
and leave the `direction` key unchanged. -/
theorem setStrFields_clean :
    ∀ (gs : List (Str × Str)) (m : Dict),
      (∀ f ∈ gs, f.1 ≠ korbitdirection ∧ f.1 ≠ kdirection) →
      ∃ m2, setStrFields m gs = .ok m2 ∧ m2 kdirection = m kdirection := by
  intro gs
  induction gs with
  | nil => intro m _; exact ⟨m, rfl, rfl⟩
  | cons f gs ih =>
    intro m h
    cases f with
    | mk n c =>
      have hn := h (n, c) (List.mem_cons_self _ _)
      have hrest : ∀ f ∈ gs, f.1 ≠ korbitdirection ∧ f.1 ≠ kdirection :=
        fun f hf => h f (List.mem_cons_of_mem _ hf)
      simp only [setStrFields]
      rw [if_neg hn.1]
      by_cases he : n = kendposition
      · rw [if_pos he]
        obtain ⟨m2, h1, h2⟩ := ih _ hrest
        exact ⟨m2, h1, by rw [h2]; exact dinsert_other _ _ _ _ (by decide)⟩
      · rw [if_neg he]
        obtain ⟨m2, h1, h2⟩ := ih _ hrest
        exact ⟨m2, h1, by rw [h2]; exact dinsert_other _ _ _ _ (Ne.symm hn.2)⟩

/-- Claim C4: the `orbitdirection` mapping is total and exhaustive over
`DESCENDING`/`ASCENDING`: `DESCENDING` stores `direction = "dsc"`,
`ASCENDING` stores `direction = "asc"`, and any other content makes the
string loop raise the `RuntimeError` (aborting the whole normalization). -/
theorem claim_c4 (m m1 : Dict) (pre post : List (Str × Str)) (c : Str)
    (hpre : setStrFields m pre = .ok m1)
    (hpost : ∀ f ∈ post, f.1 ≠ korbitdirection ∧ f.1 ≠ kdirection) :
    (c = kDESCENDING →
      ∃ m2, setStrFields m (pre ++ (korbitdirection, c) :: post) = .ok m2 ∧
        m2 kdirection = some (.vstr kdsc)) ∧
    (c = kASCENDING →
      ∃ m2, setStrFields m (pre ++ (korbitdirection, c) :: post) = .ok m2 ∧
        m2 kdirection = some (.vstr kasc)) ∧
    (c ≠ kDESCENDING → c ≠ kASCENDING →
      setStrFields m (pre ++ (korbitdirection, c) :: post) =
        .error (.runtimeError (msgOrbitDirLead ++ c))) := by
  have key : setStrFields m (pre ++ (korbitdirection, c) :: post) =
      setStrFields m1 ((korbitdirection, c) :: post) := by
    rw [setStrFields_append, hpre]
  refine ⟨?_, ?_, ?_⟩
  · intro hc; subst hc
    rw [key, show setStrFields m1 ((korbitdirection, kDESCENDING) :: post) =
      setStrFields (dinsert m1 kdirection (.vstr kdsc)) post by simp [setStrFields]]
    obtain ⟨m2, h1, h2⟩ := setStrFields_clean post _ hpost
    exact ⟨m2, h1, by rw [h2]; exact dinsert_self _ _ _⟩
  · intro hc; subst hc
    rw [key, show setStrFields m1 ((korbitdirection, kASCENDING) :: post) =
      setStrFields (dinsert m1 kdirection (.vstr kasc)) post by
        simp [setStrFields, show kASCENDING ≠ kDESCENDING by decide]]
    obtain ⟨m2, h1, h2⟩ := setStrFields_clean post _ hpost
    exact ⟨m2, h1, by rw [h2]; exact dinsert_self _ _ _⟩
  · intro h1 h2
    rw [key]
    simp [setStrFields, h1, h2]

/-- Witness for C4: a lone `DESCENDING` orbit direction stores
`direction = "dsc"`. -/
theorem claim_c4_witness :
    setStrFields emptyD [] = .ok emptyD ∧
    (∃ m2, setStrFields emptyD ([] ++ (korbitdirection, kDESCENDING) :: []) = .ok m2 ∧
      m2 kdirection = some (.vstr kdsc)) :=
  ⟨rfl, (claim_c4 emptyD emptyD [] [] kDESCENDING rfl (by simp)).1 rfl⟩

-- Track verification (claim C2).

/-- A succeeding track check means both numbers are ints satisfying the
platform formula, and conversely. -/
theorem checkTrack_ok (m : Dict) (off : Int) (msg : Str) :
    checkTrack m off msg = .ok () ↔
      ∃ t o : Int, m kTrackNumber = some (.vint t) ∧ m kOrbitNumber = some (.vint o) ∧
        t = (o - off) % 175 + 1 := by
  constructor
  · intro h
    unfold checkTrack at h
    cases ht : dget m kTrackNumber with
    | error e => rw [ht] at h; cases h
    | ok t =>
      rw [ht] at h
      cases ho : dget m kOrbitNumber with
      | error e => rw [ho] at h; cases h
      | ok o =>
        rw [ho] at h
        cases o with
        | vstr s => cases h
        | vint ov =>
          cases t with
          | vstr s => simp [valEqInt] at h
          | vint tv =>
            simp only [valEqInt] at h
            by_cases he : tv = (ov - off) % 175 + 1
            · refine ⟨tv, ov, ?_, ?_, he⟩
              · unfold dget at ht
                cases hmt : m kTrackNumber with
                | none => rw [hmt] at ht; cases ht
                | some v => rw [hmt] at ht; cases ht; rfl
              · unfold dget at ho
                cases hmo : m kOrbitNumber with
                | none => rw [hmo] at ho; cases ho
                | some v => rw [hmo] at ho; cases ho; rfl
            · rw [if_neg (by simpa using he)] at h; cases h
  · rintro ⟨t, o, ht, ho, he⟩
    unfold checkTrack
    rw [show dget m kTrackNumber = .ok (.vint t) by unfold dget; rw [ht]]
    rw [show dget m kOrbitNumber = .ok (.vint o) by unfold dget; rw [ho]]
    simp [valEqInt, he]

/-- A violating int pair makes the track check raise the `RuntimeError`. -/
theorem checkTrack_err (m : Dict) (off : Int) (msg : Str) (t o : Int)
    (ht : m kTrackNumber = some (.vint t)) (ho : m kOrbitNumber = some (.vint o))
    (hne : t ≠ (o - off) % 175 + 1) :
    checkTrack m off msg = .error (.runtimeError msg) := by
  unfold checkTrack
  rw [show dget m kTrackNumber = .ok (.vint t) by unfold dget; rw [ht]]
  rw [show dget m kOrbitNumber = .ok (.vint o) by unfold dget; rw [ho]]
  simp [valEqInt, hne]

/-- With platform `Sentinel-1A`, `verifyTrack` is the offset-73 check. -/
theorem verifyTrack_A (m : Dict) (hp : m kplatform = some (.vstr kS1A)) :
    verifyTrack m =
      match checkTrack m 73 msgVerifyA with
      | .ok _ => .ok m
      | .error e => .error e := by
  have hd : dget m kplatform = .ok (.vstr kS1A) := by unfold dget; rw [hp]
  have hne : (Val.vstr kS1A) ≠ .vstr kS1B := by decide
  unfold verifyTrack
  rw [hd]
  cases hc : checkTrack m 73 msgVerifyA with
  | ok u => simp [hne]
  | error e2 => simp [hne]

/-- With platform `Sentinel-1B`, `verifyTrack` is the offset-27 check. -/
theorem verifyTrack_B (m : Dict) (hp : m kplatform = some (.vstr kS1B)) :
    verifyTrack m =
      match checkTrack m 27 msgVerifyB with
      | .ok _ => .ok m
      | .error e => .error e := by
  have hd : dget m kplatform = .ok (.vstr kS1B) := by unfold dget; rw [hp]
  have hne : (Val.vstr kS1B) ≠ .vstr kS1A := by decide
  unfold verifyTrack
  rw [hd]
  cases hc : checkTrack m 27 msgVerifyB with
  | ok u => simp [hne]
  | error e2 => simp [hne]

/-- With any other platform value, both checks are skipped and the dict is
returned unchanged. -/
theorem verifyTrack_skip (m : Dict) (v : Val) (hp : m kplatform = some v)
    (h1 : v ≠ .vstr kS1A) (h2 : v ≠ .vstr kS1B) : verifyTrack m = .ok m := by
  have hd : dget m kplatform = .ok v := by unfold dget; rw [hp]
  unfold verifyTrack
  rw [hd]
  simp [h1, h2]

/-- The normalizer is the massaging followed by the track verification. -/
theorem massage_result_eq (geo : Str → Option (Val × Val)) (e : RawEntry) (m : Dict)
    (hb : massageBase geo e = .ok m) : massage_result geo e = verifyTrack m := by
  unfold massage_result
  rw [hb]

/-- Claim C2: when the massaged entry's platform is `Sentinel-1A`, the
normalizer succeeds only if `trackNumber = (orbitNumber - 73) % 175 + 1`
(and then returns the massaged dict unchanged), and raises the verification
`RuntimeError` on any violating int pair; with platform `Sentinel-1B` the
same holds with offset 27; with any other platform value the check is
skipped and the normalizer succeeds outright. -/
theorem claim_c2 (geo : Str → Option (Val × Val)) (e : RawEntry) (m : Dict)
    (hb : massageBase geo e = .ok m) :
    (m kplatform = some (.vstr kS1A) →
      (∀ m', massage_result geo e = .ok m' →
        m' = m ∧ ∃ t o : Int, m kTrackNumber = some (.vint t) ∧
          m kOrbitNumber = some (.vint o) ∧ t = (o - 73) % 175 + 1) ∧
      (∀ t o : Int, m kTrackNumber = some (.vint t) → m kOrbitNumber = some (.vint o) →
        t ≠ (o - 73) % 175 + 1 →
        massage_result geo e = .error (.runtimeError msgVerifyA))) ∧
    (m kplatform = some (.vstr kS1B) →
      (∀ m', massage_result geo e = .ok m' →
        m' = m ∧ ∃ t o : Int, m kTrackNumber = some (.vint t) ∧
          m kOrbitNumber = some (.vint o) ∧ t = (o - 27) % 175 + 1) ∧
      (∀ t o : Int, m kTrackNumber = some (.vint t) → m kOrbitNumber = some (.vint o) →
        t ≠ (o - 27) % 175 + 1 →
        massage_result geo e = .error (.runtimeError msgVerifyB))) ∧
    (∀ v, m kplatform = some v → v ≠ .vstr kS1A → v ≠ .vstr kS1B →
      massage_result geo e = .ok m) := by
  have hm := massage_result_eq geo e m hb
  refine ⟨?_, ?_, ?_⟩
  · intro hp
    constructor
    · intro m' h
      rw [hm, verifyTrack_A m hp] at h
      cases hc : checkTrack m 73 msgVerifyA with
      | error e2 => rw [hc] at h; cases h
      | ok u =>
        rw [hc] at h
        cases h
        exact ⟨rfl, (checkTrack_ok m 73 msgVerifyA).mp (by rw [hc])⟩
    · intro t o ht ho hne
      rw [hm, verifyTrack_A m hp, checkTrack_err m 73 msgVerifyA t o ht ho hne]
  · intro hp
    constructor
    · intro m' h
      rw [hm, verifyTrack_B m hp] at h
      cases hc : checkTrack m 27 msgVerifyB with
      | error e2 => rw [hc] at h; cases h
      | ok u =>
        rw [hc] at h
        cases h
        exact ⟨rfl, (checkTrack_ok m 27 msgVerifyB).mp (by rw [hc])⟩
    · intro t o ht ho hne
      rw [hm, verifyTrack_B m hp, checkTrack_err m 27 msgVerifyB t o ht ho hne]
  · intro v hp h1 h2
    rw [hm, verifyTrack_skip m v hp h1 h2]

/-- Witness for C2: the concrete entry `eW` massages to a `Sentinel-1A` dict
whose track and orbit numbers satisfy the platform formula. -/
theorem claim_c2_witness :
    massageBase geoW eW = .ok mW ∧
    ∃ t o : Int, mW kTrackNumber = some (.vint t) ∧ mW kOrbitNumber = some (.vint o) ∧
      t = (o - 73) % 175 + 1 :=
  ⟨rfl, (((claim_c2 geoW eW mW rfl).1 rfl).1 mW rfl).2⟩

-- Query construction (claim C9).

/-- `split('.')` never yields an empty list. -/
theorem splitDot_ne_nil (s : Str) : ∃ h t, splitDot s = h :: t := by
  cases s with
  | nil => exact ⟨[], [], rfl⟩
  | cons c rest =>
    unfold splitDot
    by_cases hc : c = '.'
    · rw [if_pos hc]; exact ⟨[], splitDot rest, rfl⟩
    · rw [if_neg hc]
      cases hs : splitDot rest with
      | nil => exact ⟨[c], [], rfl⟩
      | cons h t => exact ⟨c :: h, t, rfl⟩

/-- Unfolding equation of `split('.')` over a cons cell. -/
theorem splitDot_cons (c : Char) (s : Str) :
    splitDot (c :: s) =
      if c = '.' then [] :: splitDot s
      else
        match splitDot s with
        | [] => [[c]]
        | h :: t => (c :: h) :: t := rfl

/-- Unfolding of the first `split('.')` fragment over a cons cell. -/
theorem first0_cons (c : Char) (s : Str) :
    first0 (c :: s) = if c = '.' then [] else c :: first0 s := by
  by_cases hc : c = '.'
  · rw [if_pos hc]
    unfold first0
    rw [splitDot_cons, if_pos hc]
    rfl
  · rw [if_neg hc]
    obtain ⟨h, t, hs⟩ := splitDot_ne_nil s
    unfold first0
    rw [splitDot_cons, if_neg hc, hs]
    rfl

/-- Appending dotted text never changes the part before the first dot. -/
theorem first0_append_dot (s t : Str) : first0 (s ++ '.' :: t) = first0 s := by
  induction s with
  | nil => simp [first0, splitDot]
  | cons c s ih =>
    rw [List.cons_append, first0_cons, first0_cons]
    by_cases hc : c = '.'
    · rw [if_pos hc, if_pos hc]
    · rw [if_neg hc, if_neg hc, ih]

/-- A string without a dot passes through `split('.')[0]` whole. -/
theorem first0_of_no_dot (s : Str) (h : '.' ∉ s) : first0 s = s := by
  induction s with
  | nil => rfl
  | cons c s ih =>
    have hc : c ≠ '.' := by intro hc; subst hc; exact h (List.mem_cons_self _ _)
    rw [first0_cons, if_neg hc, ih (fun hm => h (List.mem_cons_of_mem c hm))]

/-- The part before the first dot contains no dot. -/
theorem first0_no_dot (s : Str) : '.' ∉ first0 s := by
  induction s with
  | nil => exact List.not_mem_nil _
  | cons c s ih =>
    rw [first0_cons]
    by_cases hc : c = '.'
    · rw [if_pos hc]; exact List.not_mem_nil _
    · rw [if_neg hc]
      intro hm
      rcases List.mem_cons.mp hm with h | h
      · exact hc h.symm
      · exact ih h

/-- The part before the first dot is an initial segment of the string. -/
theorem first0_initial (s : Str) : ∃ r, first0 s ++ r = s := by
  induction s with
  | nil => exact ⟨[], rfl⟩
  | cons c s ih =>
    rw [first0_cons]
    by_cases hc : c = '.'
    · rw [if_pos hc]; exact ⟨c :: s, rfl⟩
    · rw [if_neg hc]
      obtain ⟨r, hr⟩ := ih
      exact ⟨r, by rw [List.cons_append, hr]⟩

/-- Claim C9: the catalog filter is built from only the portion of each time
bound before its first `'.'` — appending a dot and anything after it to
either bound leaves the filter unchanged, the used portion is an initial
dot-free segment of the bound, and a bound without a dot is used whole. -/
theorem claim_c9 (s t u v : Str) :
    mkQuery (s ++ '.' :: t) (u ++ '.' :: v) = mkQuery s u ∧
    ('.' ∉ s → first0 s = s) ∧
    '.' ∉ first0 s ∧
    (∃ r, first0 s ++ r = s) ∧
    mkQuery s u = qt1 ++ first0 s ++ qt2 ++ first0 u ++ qt3 := by
  refine ⟨?_, first0_of_no_dot s, first0_no_dot s, first0_initial s, rfl⟩
  unfold mkQuery
  rw [first0_append_dot, first0_append_dot]

/-- Witness for C9: a dot-free time bound is used whole. -/
theorem claim_c9_witness :
    ('.' ∉ ("2020-01-01T00:00:00".toList : Str)) ∧
    first0 ("2020-01-01T00:00:00".toList) = "2020-01-01T00:00:00".toList :=
  ⟨by decide, (claim_c9 ("2020-01-01T00:00:00".toList) [] [] []).2.1 (by decide)⟩

-- Lone-object pages (claim C6).

/-- Claim C6: a page whose `entry` value is a lone object is processed by the
query loop exactly as the page carrying the one-element list — the request
offsets, the termination behavior and the accumulated state all coincide. -/
theorem claim_c6 (geo : Str → Option (Val × Val)) (version : Str) (status : Nat)
    (total : Int) (rest : List Page) (off : Nat) (st : St) (tot : Option Int)
    (e : RawEntry) :
    scrapeLoop geo version (⟨status, total, some (.one e)⟩ :: rest) off st tot =
      scrapeLoop geo version (⟨status, total, some (.many [e])⟩ :: rest) off st tot := rfl

-- The query loop (claim C5).
theorem processEntries_append (geo : Str → Option (Val × Val)) (version : Str)
    (es fs : List RawEntry) : ∀ st : St,
    processEntries geo version st (es ++ fs) =
      match processEntries geo version st es with
      | .ok st' => processEntries geo version st' fs
      | .error e => .error e := by
  induction es with
  | nil => intro st; rfl
  | cons e es ih =>
    intro st
    simp only [List.cons_append, processEntries]
    cases processEntry geo version st e with
    | ok st' => exact ih st'
    | error err => rfl

theorem scrapeLoop_front (geo : Str → Option (Val × Val)) (version : Str) :
    ∀ (front : List Page) (p0 : Page) (rest : List Page) (off : Nat) (st st' : St)
      (tot : Option Int),
      (∀ p ∈ front, p.status < 400 ∧ 0 < (pageEntries p).length) →
      p0.status < 400 → pageEntries p0 = [] →
      processEntries geo version st (pagesEntries front) = .ok st' →
      (scrapeLoop geo version (front ++ p0 :: rest) off st tot).1 =
        pageOffsets off front ++ [off + (pagesEntries front).length] ∧
      ∃ t2, (scrapeLoop geo version (front ++ p0 :: rest) off st tot).2 = .done st' t2 := by
  intro front
  induction front with
  | nil =>
    intro p0 rest off st st' tot _ h0 hempty hproc
    have hst : st = st' := by
      have h2 : Except.ok (ε := Err) st = .ok st' := hproc
      cases h2
      rfl
    subst hst
    cases p0 with
    | mk status total entries =>
      have hs : ¬ 400 ≤ status := Nat.not_le.mpr h0
      cases entries with
      | none =>
        simp only [List.nil_append, scrapeLoop]
        rw [if_neg hs]
        refine ⟨?_, ⟨_, rfl⟩⟩
        simp [pageOffsets, pagesEntries]
      | some eol =>
        have hes : entriesToList eol = [] := hempty
        simp only [List.nil_append, scrapeLoop]
        rw [if_neg hs]
        simp only [hes, processEntries, List.length_nil, Nat.lt_irrefl, if_false]
        refine ⟨?_, ⟨_, rfl⟩⟩
        simp [pageOffsets, pagesEntries]
  | cons p front ih =>
    intro p0 rest off st st' tot hfront h0 hempty hproc
    have hp := hfront p (List.mem_cons_self _ _)
    have hfront' : ∀ q ∈ front, q.status < 400 ∧ 0 < (pageEntries q).length :=
      fun q hq => hfront q (List.mem_cons_of_mem _ hq)
    have happ : pagesEntries (p :: front) = pageEntries p ++ pagesEntries front := by
      simp [pagesEntries]
    rw [happ, processEntries_append] at hproc
    cases h1 : processEntries geo version st (pageEntries p) with
    | error e => rw [h1] at hproc; cases hproc
    | ok st1 =>
      rw [h1] at hproc
      obtain ⟨hst, hlen⟩ := hp
      cases p with
      | mk status total entries =>
        have hs : ¬ 400 ≤ status := Nat.not_le.mpr hst
        cases entries with
        | none => simp [pageEntries] at hlen
        | some eol =>
          have hpe : pageEntries ⟨status, total, some eol⟩ = entriesToList eol := rfl
          rw [hpe] at h1 hlen
          simp only [List.cons_append, scrapeLoop]
          rw [if_neg hs]
          simp only [h1, hlen, if_true, if_pos hlen]
          obtain ⟨ih1, t2, ih2⟩ := ih p0 rest (off + (entriesToList eol).length) st1 st'
            (match tot with | none => some total | some t => some t) hfront' h0 hempty hproc
          simp only [List.append_eq]
          constructor
          · rw [ih1]
            rw [show pageOffsets off (⟨status, total, some eol⟩ :: front) =
              off :: pageOffsets (off + (entriesToList eol).length) front from rfl]
            rw [happ, hpe, List.length_append, List.cons_append]
            simp [Nat.add_assoc]
          · exact ⟨t2, ih2⟩

theorem scrapeLoop_retotal (geo : Str → Option (Val × Val)) (version : Str) (f : Int) :
    ∀ (ps : List Page) (off : Nat) (st : St) (tot tot2 : Option Int),
      (scrapeLoop geo version (ps.map (retotal f)) off st tot2).1 =
        (scrapeLoop geo version ps off st tot).1 ∧
      dropTotal (scrapeLoop geo version (ps.map (retotal f)) off st tot2).2 =
        dropTotal (scrapeLoop geo version ps off st tot).2 := by
  intro ps
  induction ps with
  | nil => intro off st tot tot2; exact And.intro rfl rfl
  | cons p ps ih =>
    intro off st tot tot2
    cases p with
    | mk status total entries =>
      simp only [List.map_cons, retotal, scrapeLoop]
      by_cases hs : 400 ≤ status
      · simp [if_pos hs, dropTotal]
      · simp only [if_neg hs]
        cases entries with
        | none => simp [dropTotal]
        | some eol =>
          cases hpe : processEntries geo version st (entriesToList eol) with
          | error e => simp [hpe, dropTotal]
          | ok st1 =>
            simp only [hpe]
            by_cases hc : 0 < (entriesToList eol).length
            · simp only [if_pos hc]
              obtain ⟨e1, e2⟩ := ih (off + (entriesToList eol).length) st1
                (match tot with | none => some total | some t => some t)
                (match tot2 with | none => some f | some t => some t)
              constructor
              · simpa using e1
              · simpa using e2
            · simp [if_neg hc, dropTotal]

/-- Claim C5: against a scripted page sequence of nonempty, successfully
processed pages followed by an empty page, the query loop issues exactly one
request per nonempty page plus the terminating empty-page request (at
offsets equal to the running entry counts), terminates in `done` with the
state obtained by processing the concatenation of all entries, and the
declared total result count of the pages affects neither the requests issued
nor the resulting state; in particular four pages of sizes 100, 100, 37 and
0 give exactly 4 requests at offsets 0, 100, 200, 237. -/
theorem claim_c5 (geo : Str → Option (Val × Val)) (version : Str)
    (front : List Page) (p0 : Page) (rest : List Page) (off : Nat) (st st' : St)
    (tot : Option Int)
    (hfront : ∀ p ∈ front, p.status < 400 ∧ 0 < (pageEntries p).length)
    (h0 : p0.status < 400) (hempty : pageEntries p0 = [])
    (hproc : processEntries geo version st (pagesEntries front) = .ok st') :
    (scrapeLoop geo version (front ++ p0 :: rest) off st tot).1 =
      pageOffsets off front ++ [off + (pagesEntries front).length] ∧
    (∃ t2, (scrapeLoop geo version (front ++ p0 :: rest) off st tot).2 = .done st' t2) ∧
    (∀ (f : Int) (tot2 : Option Int),
      (scrapeLoop geo version ((front ++ p0 :: rest).map (retotal f)) off st tot2).1 =
        (scrapeLoop geo version (front ++ p0 :: rest) off st tot).1 ∧
      dropTotal (scrapeLoop geo version ((front ++ p0 :: rest).map (retotal f)) off st tot2).2 =
        dropTotal (scrapeLoop geo version (front ++ p0 :: rest) off st tot).2) := by
  obtain ⟨h1, h2⟩ :=
    scrapeLoop_front geo version front p0 rest off st st' tot hfront h0 hempty hproc
  exact ⟨h1, h2, fun f tot2 =>
    scrapeLoop_retotal geo version f (front ++ p0 :: rest) off st tot tot2⟩

set_option maxRecDepth 1000000 in
/-- Witness for C5: the scripted pages of sizes 100, 100 and 37 followed by
an empty page give exactly 4 requests at offsets 0, 100, 200 and 237, with
all 237 entries processed (the track-1 bucket receives all 237). -/
theorem claim_c5_witness :
    (∀ p ∈ pagesW, p.status < 400 ∧ 0 < (pageEntries p).length) ∧
    processEntries geoW vW st0 (pagesEntries pagesW) = .ok stBig ∧
    (scrapeLoop geoW vW (pagesW ++ (⟨200, 237, none⟩ : Page) :: []) 0 st0 none).1 =
      pageOffsets 0 pagesW ++ [0 + (pagesEntries pagesW).length] ∧
    pageOffsets 0 pagesW ++ [0 + (pagesEntries pagesW).length] = [0, 100, 200, 237] ∧
    (stBig.buckets (.vint 1)).length = 237 :=
  ⟨by decide, rfl,
    (claim_c5 geoW vW pagesW ⟨200, 237, none⟩ [] 0 st0 stBig none
      (by decide) (by decide) rfl rfl).1,
    by decide, by decide⟩

-- Reconciliation (claim C7).

/-- When every probe answers 200 or 404, reconciliation succeeds and the two
lists classify the accumulated identifiers exactly: every 200-probed and only
a 200-probed identifier is found, every 404-probed and only a 404-probed one
is missing. -/
theorem reconcile_ok (probe : Val → Nat) :
    ∀ l : List (Val × Rec),
      (∀ x ∈ l, probe x.1 = 200 ∨ probe x.1 = 404) →
      ∃ found missing, (reconcile probe l).2 = .ok (found, missing) ∧
        (∀ id, (id ∈ found ∨ id ∈ missing) ↔ ∃ r, (id, r) ∈ l) ∧
        (∀ id, id ∈ found → probe id = 200) ∧
        (∀ id, id ∈ missing → probe id = 404) := by
  intro l
  induction l with
  | nil =>
    intro _
    refine ⟨[], [], rfl, ?_, ?_, ?_⟩
    · intro id
      simp
    · intro id h; cases h
    · intro id h; cases h
  | cons x l ih =>
    intro h
    obtain ⟨id0, r0⟩ := x
    have h0 := h (id0, r0) (List.mem_cons_self _ _)
    obtain ⟨found, missing, hrec, hiff, hf, hm⟩ :=
      ih (fun y hy => h y (List.mem_cons_of_mem _ hy))
    rcases h0 with h0 | h0
    · refine ⟨id0 :: found, missing, ?_, ?_, ?_, ?_⟩
      · simp [reconcile, h0, hrec, Except.map]
      · intro id
        constructor
        · intro hin
          rcases hin with hin | hin
          · rcases List.mem_cons.mp hin with hin | hin
            · exact ⟨r0, hin ▸ List.mem_cons_self _ _⟩
            · obtain ⟨r, hr⟩ := (hiff id).mp (Or.inl hin)
              exact ⟨r, List.mem_cons_of_mem _ hr⟩
          · obtain ⟨r, hr⟩ := (hiff id).mp (Or.inr hin)
            exact ⟨r, List.mem_cons_of_mem _ hr⟩
        · rintro ⟨r, hr⟩
          rcases List.mem_cons.mp hr with hr | hr
          · cases hr
            exact Or.inl (List.mem_cons_self _ _)
          · rcases (hiff id).mpr ⟨r, hr⟩ with hin | hin
            · exact Or.inl (List.mem_cons_of_mem _ hin)
            · exact Or.inr hin
      · intro id hin
        rcases List.mem_cons.mp hin with hin | hin
        · rw [hin]; exact h0
        · exact hf id hin
      · exact hm
    · refine ⟨found, id0 :: missing, ?_, ?_, ?_, ?_⟩
      · simp [reconcile, h0, hrec, Except.map]
      · intro id
        constructor
        · intro hin
          rcases hin with hin | hin
          · obtain ⟨r, hr⟩ := (hiff id).mp (Or.inl hin)
            exact ⟨r, List.mem_cons_of_mem _ hr⟩
          · rcases List.mem_cons.mp hin with hin | hin
            · exact ⟨r0, hin ▸ List.mem_cons_self _ _⟩
            · obtain ⟨r, hr⟩ := (hiff id).mp (Or.inr hin)
              exact ⟨r, List.mem_cons_of_mem _ hr⟩
        · rintro ⟨r, hr⟩
          rcases List.mem_cons.mp hr with hr | hr
          · refine Or.inr ?_
            cases hr
            exact List.mem_cons_self _ _
          · rcases (hiff id).mpr ⟨r, hr⟩ with hin | hin
            · exact Or.inl hin
            · exact Or.inr (List.mem_cons_of_mem _ hin)
      · exact hf
      · intro id hin
        rcases List.mem_cons.mp hin with hin | hin
        · rw [hin]; exact h0
        · exact hm id hin

/-- If some accumulated identifier probes to a 4xx/5xx status other than
404, reconciliation aborts with an error. -/
theorem reconcile_aborts (probe : Val → Nat) :
    ∀ l : List (Val × Rec),
      (∃ x ∈ l, (400 ≤ probe x.1 ∧ probe x.1 < 600) ∧ probe x.1 ≠ 404) →
      ∃ e, (reconcile probe l).2 = .error e := by
  intro l
  induction l with
  | nil => rintro ⟨x, hx, _⟩; cases hx
  | cons y l ih =>
    rintro ⟨x, hx, hxs, hx404⟩
    obtain ⟨id0, r0⟩ := y
    by_cases h200 : probe id0 = 200
    · have hxl : x ∈ l := by
        rcases List.mem_cons.mp hx with h | h
        · exfalso
          have hxs2 : 400 ≤ probe id0 ∧ probe id0 < 600 := by rw [h] at hxs; exact hxs
          omega
        · exact h
      obtain ⟨e, he⟩ := ih ⟨x, hxl, hxs, hx404⟩
      refine ⟨e, ?_⟩
      simp [reconcile, h200, he, Except.map]
    · by_cases h404 : probe id0 = 404
      · have hxl : x ∈ l := by
          rcases List.mem_cons.mp hx with h | h
          · exfalso
            rw [h] at hx404
            exact hx404 h404
          · exact h
        obtain ⟨e, he⟩ := ih ⟨x, hxl, hxs, hx404⟩
        refine ⟨e, ?_⟩
        simp [reconcile, h200, h404, he, Except.map]
      · by_cases herr : 400 ≤ probe id0 ∧ probe id0 < 600
        · refine ⟨.httpError (probe id0), ?_⟩
          simp [reconcile, h200, h404, herr]
        · have hxl : x ∈ l := by
            rcases List.mem_cons.mp hx with h | h
            · exfalso
              rw [h] at hxs
              exact herr hxs
            · exact h
          obtain ⟨e, he⟩ := ih ⟨x, hxl, hxs, hx404⟩
          refine ⟨e, ?_⟩
          simp [reconcile, h200, h404, herr, he, Except.map]

/-- Claim C7 (amended): when every existence probe answers 200 or 404, the
reconciliation lists are disjoint and together cover exactly the accumulated
identifiers; when some probe answers a 4xx/5xx status other than 404,
reconciliation aborts with an error (a non-error status other than 200/404,
however, is silently skipped — see the counterexample). -/
theorem claim_c7_amended (probe : Val → Nat) (l : List (Val × Rec)) :
    ((∀ x ∈ l, probe x.1 = 200 ∨ probe x.1 = 404) →
      ∃ found missing, (reconcile probe l).2 = .ok (found, missing) ∧
        (∀ id, (id ∈ found ∨ id ∈ missing) ↔ ∃ r, (id, r) ∈ l) ∧
        (∀ id, id ∈ found → id ∉ missing)) ∧
    ((∃ x ∈ l, (400 ≤ probe x.1 ∧ probe x.1 < 600) ∧ probe x.1 ≠ 404) →
      ∃ e, (reconcile probe l).2 = .error e) := by
  constructor
  · intro h
    obtain ⟨found, missing, hrec, hiff, hf, hm⟩ := reconcile_ok probe l h
    refine ⟨found, missing, hrec, hiff, ?_⟩
    intro id hin hmem
    have := hf id hin
    have := hm id hmem
    omega
  · exact reconcile_aborts probe l

/-- Witness for C7 (amended): a 404-probing run partitions, a 500-probing
run aborts. -/
theorem claim_c7_witness :
    (∃ found missing,
      (reconcile (fun _ => 404) [(.vint 0, recW)]).2 = .ok (found, missing) ∧
      (∀ id, (id ∈ found ∨ id ∈ missing) ↔ ∃ r, (id, r) ∈ [((.vint 0 : Val), recW)]) ∧
      (∀ id, id ∈ found → id ∉ missing)) ∧
    (∃ e, (reconcile (fun _ => 500) [(.vint 0, recW)]).2 = .error e) :=
  ⟨(claim_c7_amended (fun _ => 404) [(.vint 0, recW)]).1 (by intro x _; right; rfl),
   (claim_c7_amended (fun _ => 500) [(.vint 0, recW)]).2
     ⟨(.vint 0, recW), List.mem_cons_self _ _, by omega, by omega⟩⟩

/-- Counterexample for C7 as stated: a probe answering 201 — a third outcome
— does not abort reconciliation: it returns successfully, and the probed
identifier lands in neither list (so the partition is not exhaustive
either). -/
theorem claim_c7_counterexample :
    (reconcile (fun _ => 201) [(.vint 0, recW)]).2 = .ok ([], []) ∧
    ∀ e, (reconcile (fun _ => 201) [(.vint 0, recW)]).2 ≠ .error e := by
  constructor
  · rfl
  · intro e h
    rw [show (reconcile (fun _ => 201) [((.vint 0 : Val), recW)]).2 =
      .ok ([], []) from rfl] at h
    cases h

-- Accumulator insertion (claim C8).

/-- `processEntry` is the state-independent entry summary followed by the
state update. -/
theorem processEntry_eq (geo : Str → Option (Val × Val)) (version : Str)
    (st : St) (e : RawEntry) :
    processEntry geo version st e =
      match entrySummary geo version e with
      | .ok x => .ok (stepSt st x)
      | .error err => .error err := by
  unfold processEntry entrySummary
  simp only [bind]
  cases massage_result geo e with
  | error err => simp [Except.bind]
  | ok met =>
    simp only [Except.bind]
    cases get_dataset_json met version with
    | error err => simp [Except.bind]
    | ok ds =>
      simp only [Except.bind]
      cases dget met kdata_product_name with
      | error err => simp [Except.bind]
      | ok name =>
        simp only [Except.bind]
        cases dget met kTrackNumber with
        | error err => simp [Except.bind]
        | ok track => simp [Except.bind, stepSt]

/-- A successful entry loop is the fold of the state update over the entry
summaries. -/
theorem processEntries_ok (geo : Str → Option (Val × Val)) (version : Str) :
    ∀ (es : List RawEntry) (st st' : St),
      processEntries geo version st es = .ok st' →
      ∃ L, summaries geo version es = .ok L ∧ st' = L.foldl stepSt st := by
  intro es
  induction es with
  | nil =>
    intro st st' h
    have h2 : Except.ok (ε := Err) st = .ok st' := h
    cases h2
    exact ⟨[], rfl, rfl⟩
  | cons e es ih =>
    intro st st' h
    simp only [processEntries, processEntry_eq] at h
    cases hx : entrySummary geo version e with
    | error err => rw [hx] at h; cases h
    | ok x =>
      rw [hx] at h
      obtain ⟨L, hL, hst⟩ := ih (stepSt st x) st' h
      refine ⟨x :: L, ?_, hst⟩
      simp only [summaries, hx, hL]

/-- Lookup after folding the state updates: the last summary with the looked
up key wins; a key never summarized keeps its prior binding. -/
theorem foldl_prods (k : Val) :
    ∀ (L : List (Val × Rec × Val)) (st : St),
      dictGet ((L.foldl stepSt st).prods) k =
        (match lastWith k L with
         | some r => some r
         | none => dictGet st.prods k) := by
  intro L
  have hupd : ∀ (ps : List (Val × Rec)) (n : Val) (r : Rec),
      dictGet (dictUpdate ps n r) k = if n = k then some r else dictGet ps k := by
    intro ps
    induction ps with
    | nil =>
      intro n r
      by_cases h : n = k
      · simp [dictUpdate, dictGet, h]
      · simp [dictUpdate, dictGet, h]
    | cons p ps ih =>
      intro n r
      obtain ⟨pk, pv⟩ := p
      by_cases h : pk = n
      · subst h
        by_cases h2 : pk = k
        · simp [dictUpdate, dictGet, h2]
        · simp [dictUpdate, dictGet, h2]
      · by_cases h2 : pk = k
        · subst h2
          simp only [dictUpdate, if_neg h]
          rw [show dictGet ((pk, pv) :: dictUpdate ps n r) pk = some pv by simp [dictGet]]
          rw [if_neg (fun hnk => h hnk.symm)]
          simp [dictGet]
        · simp only [dictUpdate, if_neg h]
          rw [show dictGet ((pk, pv) :: dictUpdate ps n r) k =
            dictGet (dictUpdate ps n r) k by simp [dictGet, h2]]
          rw [ih n r]
          rw [show dictGet ((pk, pv) :: ps) k = dictGet ps k by simp [dictGet, h2]]
  induction L with
  | nil => intro st; rfl
  | cons x L ih =>
    intro st
    simp only [List.foldl_cons, ih (stepSt st x), lastWith]
    cases hl : lastWith k L with
    | some r => rfl
    | none =>
      simp only [stepSt, hupd]
      by_cases h : x.1 = k
      · rw [if_pos h, if_pos h]
      · rw [if_neg h, if_neg h]

/-- Buckets after folding the state updates: each track bucket receives, in
order, one identifier per summary with that track. -/
theorem foldl_buckets (t : Val) :
    ∀ (L : List (Val × Rec × Val)) (st : St),
      (L.foldl stepSt st).buckets t = st.buckets t ++ namesWith t L := by
  intro L
  induction L with
  | nil => intro st; simp [namesWith]
  | cons x L ih =>
    intro st
    simp only [List.foldl_cons, ih (stepSt st x), lastWith, namesWith]
    by_cases h : x.2.2 = t
    · rw [if_pos h]
      rw [show (stepSt st x).buckets t = st.buckets t ++ [x.1] by
        simp [stepSt, bucketApp, h]]
      simp
    · rw [if_neg h]
      rw [show (stepSt st x).buckets t = st.buckets t by
        simp only [stepSt, bucketApp]
        rw [if_neg (fun h2 => h h2.symm)]]
      simp

/-- Claim C8: over any successfully processed entry sequence, the
accumulator is last-write-wins on the identifier key — each key holds the
record of its last occurrence, keys never produced keep their prior binding
— while every occurrence unconditionally appends its identifier to its track
bucket, in order (so a bucket may hold duplicates even though the
accumulator holds one record per identifier). -/
theorem claim_c8 (geo : Str → Option (Val × Val)) (version : Str) (st : St)
    (es : List RawEntry) (st' : St)
    (hproc : processEntries geo version st es = .ok st') :
    ∃ L, summaries geo version es = .ok L ∧
      (∀ k, dictGet st'.prods k =
        (match lastWith k L with
         | some r => some r
         | none => dictGet st.prods k)) ∧
      (∀ t, st'.buckets t = st.buckets t ++ namesWith t L) := by
  obtain ⟨L, hL, hst⟩ := processEntries_ok geo version es st st' hproc
  subst hst
  exact ⟨L, hL, fun k => foldl_prods k L st, fun t => foldl_buckets t L st⟩

/-- Witness for C8: processing the same entry twice leaves one accumulator
record and two bucket occurrences. -/
theorem claim_c8_witness :
    processEntries geoW vW st0 [eW, eW] = .ok stW ∧
    ∃ L, summaries geoW vW [eW, eW] = .ok L ∧
      (∀ k, dictGet stW.prods k =
        (match lastWith k L with
         | some r => some r
         | none => dictGet st0.prods k)) ∧
      (∀ t, stW.buckets t = st0.buckets t ++ namesWith t L) :=
  ⟨rfl, claim_c8 geoW vW st0 [eW, eW] stW rfl⟩

-- create_acq_dataset (claim C10).

/-- Claim C10: a successful `create_acq_dataset` call returns as dataset id
exactly the record's `data_product_name`; the met dict it writes (and, in
Python, mutates in place) gains the key `query_api` with value `"odata"`
while every other key is left unchanged; and the files written are the
dataset JSON and that updated met dict. -/
theorem claim_c10 (ds met : Dict) (root : Str) (browse : Bool) (out : CreateOut)
    (h : create_acq_dataset ds met root browse = .ok out) :
    met kdata_product_name = some out.id ∧
    out.metOut kquery_api = some (.vstr kodata) ∧
    (∀ k, k ≠ kquery_api → out.metOut k = met k) ∧
    (∃ p q, out.written = [(p, ds), (q, out.metOut)]) := by
  unfold create_acq_dataset at h
  simp only [bind] at h
  cases hd : met kdata_product_name with
  | none =>
    rw [show dget met kdata_product_name = .error (.keyError kdata_product_name) by
      unfold dget; rw [hd]] at h
    simp [Except.bind] at h
  | some idv =>
    rw [show dget met kdata_product_name = .ok idv by unfold dget; rw [hd]] at h
    simp only [Except.bind] at h
    cases browse with
    | false =>
      simp only [Bool.false_eq_true, if_false] at h
      cases h
      refine ⟨rfl, ?_, ?_, ⟨_, _, rfl⟩⟩
      · show dinsert met kquery_api (.vstr kodata) kquery_api = some (.vstr kodata)
        exact dinsert_self _ _ _
      · intro k hk
        show dinsert met kquery_api (.vstr kodata) k = met k
        exact dinsert_other _ _ _ _ hk
    | true =>
      simp only [if_true] at h
      cases hicon : (dinsert met kquery_api (.vstr kodata)) kicon with
      | none =>
        rw [show dget (dinsert met kquery_api (.vstr kodata)) kicon =
          .error (.keyError kicon) by unfold dget; rw [hicon]] at h
        simp [Except.bind] at h
      | some iv =>
        rw [show dget (dinsert met kquery_api (.vstr kodata)) kicon = .ok iv by
          unfold dget; rw [hicon]] at h
        simp only [Except.bind] at h
        cases h
        refine ⟨rfl, ?_, ?_, ⟨_, _, rfl⟩⟩
        · show dinsert met kquery_api (.vstr kodata) kquery_api = some (.vstr kodata)
          exact dinsert_self _ _ _
        · intro k hk
          show dinsert met kquery_api (.vstr kodata) k = met k
          exact dinsert_other _ _ _ _ hk

/-- Witness for C10: a concrete run on `metW`. -/
theorem claim_c10_witness :
    create_acq_dataset emptyD metW ("/tmp".toList) false = .ok outW ∧
    (metW kdata_product_name = some outW.id ∧
      outW.metOut kquery_api = some (.vstr kodata) ∧
      (∀ k, k ≠ kquery_api → outW.metOut k = metW k) ∧
      (∃ p q, outW.written = [(p, emptyD), (q, outW.metOut)])) :=
  ⟨rfl, claim_c10 emptyD metW ("/tmp".toList) false outW rfl⟩

-- scrape and the mode-flag check (claim C1).

/-- Page requests are never dataset events. -/
theorem fetch_filter (q : Str) :
    ∀ offs : List Nat, (offs.map (Event.fetch q)).filter isDatasetEvent = [] := by
  intro offs
  induction offs with
  | nil => rfl
  | cons o offs ih => simp [isDatasetEvent, ih]

/-- Existence probes are never dataset events. -/
theorem reconcile_filter (probe : Val → Nat) :
    ∀ l : List (Val × Rec), ((reconcile probe l).1).filter isDatasetEvent = [] := by
  intro l
  induction l with
  | nil => rfl
  | cons x l ih =>
    obtain ⟨id0, r0⟩ := x
    simp only [reconcile]
    by_cases h200 : probe id0 = 200
    · simp [h200, isDatasetEvent, ih]
    · by_cases h404 : probe id0 = 404
      · simp [h200, h404, isDatasetEvent, ih]
      · by_cases herr : 400 ≤ probe id0 ∧ probe id0 < 600
        · simp [h200, h404, herr, isDatasetEvent]
        · simp [h200, h404, herr, isDatasetEvent, ih]

/-- The loop always issues the request for the first scripted page, at the
starting offset. -/
theorem scrapeLoop_first (geo : Str → Option (Val × Val)) (version : Str)
    (p : Page) (ps : List Page) (off : Nat) (st : St) (tot : Option Int) :
    ∃ offs', (scrapeLoop geo version (p :: ps) off st tot).1 = off :: offs' := by
  cases p with
  | mk status total entries =>
    simp only [scrapeLoop]
    by_cases hs : 400 ≤ status
    · rw [if_pos hs]; exact ⟨[], rfl⟩
    · rw [if_neg hs]
      cases entries with
      | none => exact ⟨[], rfl⟩
      | some eol =>
        cases hpe : processEntries geo version st (entriesToList eol) with
        | error e => simp only [hpe]; exact ⟨[], rfl⟩
        | ok st1 =>
          simp only [hpe]
          by_cases hc : 0 < (entriesToList eol).length
          · rw [if_pos hc]; exact ⟨_, rfl⟩
          · rw [if_neg hc]; exact ⟨[], rfl⟩

/-- Claim C1 (amended): invoking `scrape` with both `ingest_missing` and
`create_only` never creates or ingests a dataset and never succeeds — but
the configuration error is only raised after the query loop and the
existence probes have run: the trace of such a call still contains the page
fetches (in particular the first page request at offset 0 whenever the
script is nonempty), and the probes when the loop completes. -/
theorem claim_c1_amended (geo : Str → Option (Val × Val)) (version : Str)
    (pages : List Page) (probe : Val → Nat) (starttime endtime : Str) :
    ((scrape geo version pages probe starttime endtime true true).1.filter
      isDatasetEvent = []) ∧
    (∃ e, (scrape geo version pages probe starttime endtime true true).2 = .error e) ∧
    (∀ p ps, pages = p :: ps →
      Event.fetch (mkQuery starttime endtime) 0 ∈
        (scrape geo version pages probe starttime endtime true true).1) := by
  refine ⟨?_, ?_, ?_⟩
  · unfold scrape
    cases hr : (scrapeLoop geo version pages 0 st0 none).2 with
    | failed e => simp only [hr]; exact fetch_filter _ _
    | starved st2 t2 => simp only [hr]; exact fetch_filter _ _
    | done st2 t2 =>
      simp only [hr]
      cases hrec : (reconcile probe st2.prods).2 with
      | error e =>
        simp only [hrec, List.filter_append, fetch_filter, reconcile_filter]
        rfl
      | ok fm =>
        simp only [hrec, Bool.and_self, if_true, List.filter_append,
          fetch_filter, reconcile_filter]
        simp
  · unfold scrape
    cases hr : (scrapeLoop geo version pages 0 st0 none).2 with
    | failed e => exact ⟨e, by simp only [hr]⟩
    | starved st2 t2 => exact ⟨.scriptEnd, by simp only [hr]⟩
    | done st2 t2 =>
      cases hrec : (reconcile probe st2.prods).2 with
      | error e => exact ⟨e, by simp only [hr, hrec]⟩
      | ok fm => exact ⟨.runtimeError msgConfig, by simp only [hr, hrec]; rfl⟩
  · rintro p ps rfl
    obtain ⟨offs', hoffs⟩ := scrapeLoop_first geo version p ps 0 st0 none
    unfold scrape
    cases hr : (scrapeLoop geo version (p :: ps) 0 st0 none).2 with
    | failed e =>
      simp only [hr, hoffs]
      exact List.mem_cons_self _ _
    | starved st2 t2 =>
      simp only [hr, hoffs]
      exact List.mem_cons_self _ _
    | done st2 t2 =>
      cases hrec : (reconcile probe st2.prods).2 with
      | error e =>
        simp only [hr, hrec, hoffs]
        exact List.mem_append_left _ (List.mem_cons_self _ _)
      | ok fm =>
        simp only [hr, hrec, hoffs, Bool.and_self, if_true]
        exact List.mem_append_left _ (List.mem_cons_self _ _)

/-- Witness for C1 (amended): with a nonempty script and both flags set, the
first page fetch does occur. -/
theorem claim_c1_witness :
    Event.fetch (mkQuery ("2020".toList) ("2021".toList)) 0 ∈
      (scrape geoW vW [⟨200, 0, none⟩] (fun _ => 200) ("2020".toList)
        ("2021".toList) true true).1 :=
  (claim_c1_amended geoW vW [⟨200, 0, none⟩] (fun _ => 200) ("2020".toList)
    ("2021".toList)).2.2 ⟨200, 0, none⟩ [] rfl

/-- Counterexample for C1 as stated: a concrete invocation with both flags
set performs a page fetch (and then raises the configuration error), so the
error is not raised before the network work. -/
theorem claim_c1_counterexample :
    Event.fetch (mkQuery ("2020".toList) ("2021".toList)) 0 ∈
      (scrape geoW vW [⟨200, 0, none⟩] (fun _ => 200) ("2020".toList)
        ("2021".toList) true true).1 ∧
    (scrape geoW vW [⟨200, 0, none⟩] (fun _ => 200) ("2020".toList)
      ("2021".toList) true true).2 = .error (.runtimeError msgConfig) := by
  exact ⟨by decide, rfl⟩
